import Mathlib

/-!
# Verification of the batched 1-D cubic-spline interpolation core (xitorch)

Shallow embedding of `xitorch/_impls/interpolate/interp_1d.py` over exact
rational arithmetic.  Abscissas are modelled as a function `x : ℕ → ℚ`
together with a length `nr`; an ordinate row is `y : ℕ → ℚ` (the torch batch
dimension `*B` acts independently row-by-row, so one row is modelled); a
query tensor is a `List ℚ`.  Floating-point tensors are modelled by exact
rationals, so "within floating tolerance" becomes exact equality.

The helper modules `base_interp.py` and `extrap_utils.py` are not part of
the provided sources; the functions taken from them (`get_extrap_pos`,
`get_extrap_val`) are modelled from the spec and marked as such below.
-/

/-! ## Error and warning taxonomy

The Python code raises `RuntimeError` with distinct messages (and the
default-extrapolation dictionary lookup can raise `KeyError`); the spec
names these error classes, which we reproduce as constructors. -/

inductive Err where
  | configurationError
  | shapeError
  | missingDataError
  | periodicityViolation
  | keyError
  deriving DecidableEq, Repr

inductive Warn where
  | conflictingInputAdvisory
  deriving DecidableEq, Repr

/-- A float value: either a finite (here: rational) number or a NaN fill. -/
inductive FVal where
  | fin (q : ℚ)
  | nan
  deriving DecidableEq, Repr

/-- The `extrap` argument of `CubicSpline1D`: an int/float/tensor constant,
a string tag, or a callable. -/
inductive ExtrapArg where
  | num (c : ℚ)
  | str (s : String)
  | fn (f : ℚ → ℚ)

/-- Python `extrap == "tag"`: true exactly when the argument is that string. -/
def ExtrapArg.isStr (e : ExtrapArg) (tag : String) : Bool :=
  match e with
  | .str t => t == tag
  | _ => false

/-! ## Segment location (`CubicSpline1D._interp`, lines 144-147)

`torch.searchsorted(x, v, right=False)` on a sorted 1-D `x` returns the
first index `i` with `x[i] ≥ v`, equivalently the number of entries
strictly below `v`; the latter is the embedding. -/

def searchsorted (x : ℕ → ℚ) (nr : ℕ) (v : ℚ) : ℕ :=
  ((Finset.range nr).filter (fun i => x i < v)).card

/-- Source: `idxr = torch.clamp(searchsorted(x, v), 1, nr-1)` (clamp applies the
lower bound first, then the upper bound). -/
def idxrOf (x : ℕ → ℚ) (nr : ℕ) (v : ℚ) : ℕ :=
  min (max (searchsorted x nr v) 1) (nr - 1)

/-- Source: `idxl = idxr - 1`. -/
def idxlOf (x : ℕ → ℚ) (nr : ℕ) (v : ℚ) : ℕ :=
  idxrOf x nr v - 1

/-! ## The two evaluation formulations (`CubicSpline1D._interp`, lines 149-197) -/

/-- Polynomial (Horner) formulation, lines 150-173: per-segment coefficients
`p0..p3` gathered at `idxl`, evaluated at `t = (xq - x[idxl]) / dx[idxl]` by
nested multiplication.  `yl`, `dy`, `dx`, `a`, `b` are the length-`nr-1`
arrays of the source, read at index `idxl`. -/
def interp_horner (x y ks : ℕ → ℚ) (nr : ℕ) (q : ℚ) : ℚ :=
  let idxl := idxlOf x nr q
  let yl := y idxl
  let xl := x idxl
  let dy := y (idxl + 1) - yl
  let dx := x (idxl + 1) - xl
  let a := ks idxl * dx - dy
  let b := -ks (idxl + 1) * dx + dy
  let p0 := yl
  let p1 := dy + a
  let p2 := b - 2 * a
  let p3 := a - b
  let t := (q - xl) / dx
  ((p3 * t + p2) * t + p1) * t + p0

/-- Hermite-basis formulation, lines 175-197: gather `xl, xr, yl, yr, kl, kr`
at `idxl`/`idxr` and combine with the cubic Hermite basis of
`t = (xq - xl) / (xr - xl)`. -/
def interp_hermite (x y ks : ℕ → ℚ) (nr : ℕ) (q : ℚ) : ℚ :=
  let idxr := idxrOf x nr q
  let idxl := idxlOf x nr q
  let xl := x idxl
  let xr := x idxr
  let yl := y idxl
  let yr := y idxr
  let kl := ks idxl
  let kr := ks idxr
  let dxrl := xr - xl
  let t := (q - xl) / dxrl
  let tinv := 1 - t
  let tta := t * tinv * tinv
  let ttb := t * tinv * t
  let tyl := tinv + tta - ttb
  let tyr := t - tta + ttb
  let tkl := tta * dxrl
  let tkr := -ttb * dxrl
  yl * tyl + yr * tyr + kl * tkl + kr * tkr

/-- Source: `_interp` evaluates the whole query list, choosing the polynomial form
when `numel(xq) > numel(x)` and the Hermite form otherwise (line 149). -/
def interp_vec (x y ks : ℕ → ℚ) (nr : ℕ) (xq : List ℚ) : List ℚ :=
  if xq.length > nr then xq.map (interp_horner x y ks nr)
  else xq.map (interp_hermite x y ks nr)

/-! ## The spline linear system (`_get_spline_mat_inv`, lines 219-288) -/

/-- Source: `dxinv0 = 1/(x[1:] - x[:-1])`, the inverse spacings (length `nr-1`). -/
def dxinv0 (x : ℕ → ℚ) (i : ℕ) : ℚ := 1 / (x (i + 1) - x i)

/-- Source: `dxinv = cat(zero, dxinv0, zero)`: inverse spacings zero-padded at both
ends (length `nr+1`, indices `0..nr`). -/
def dxinvPad (x : ℕ → ℚ) (nr i : ℕ) : ℚ :=
  if i = 0 ∨ i = nr then 0 else dxinv0 x (i - 1)

/-- Source: `diag = (dxinv[:-1] + dxinv[1:]) * 2`. -/
def diagL (x : ℕ → ℚ) (nr i : ℕ) : ℚ :=
  (dxinvPad x nr i + dxinvPad x nr (i + 1)) * 2

/-- The left-hand tridiagonal matrix before the boundary-condition rewrite:
diagonal `diag`, super- and sub-diagonal `dxinv0`. -/
def spline_mat_base (x : ℕ → ℚ) (nr : ℕ) : Matrix (Fin nr) (Fin nr) ℚ :=
  Matrix.of fun i j =>
    if i = j then diagL x nr i.val
    else if j.val = i.val + 1 then dxinv0 x i.val
    else if i.val = j.val + 1 then dxinv0 x j.val
    else 0

/-- Clamped rewrite of the left-hand matrix: the first and last rows become
identity rows (`spline_mat[0,:] = 0; spline_mat[0,0] = 1`, same at `-1`). -/
def clamp_lhs (nr : ℕ) (M : Matrix (Fin nr) (Fin nr) ℚ) : Matrix (Fin nr) (Fin nr) ℚ :=
  Matrix.of fun i j =>
    if i.val = 0 ∨ i.val = nr - 1 then (if i = j then 1 else 0) else M i j

/-- The left-hand matrix of the spline system. -/
def spline_mat (x : ℕ → ℚ) (nr : ℕ) (bc : String) : Matrix (Fin nr) (Fin nr) ℚ :=
  if bc = "clamped" then clamp_lhs nr (spline_mat_base x nr) else spline_mat_base x nr

/-- Source: `dxinv2 = (dxinv * dxinv) * 3` over the padded spacings. -/
def dxinv2 (x : ℕ → ℚ) (nr i : ℕ) : ℚ :=
  dxinvPad x nr i * dxinvPad x nr i * 3

/-- The right-hand matrix before the boundary-condition rewrite: diagonal
`dxinv2[:-1] - dxinv2[1:]`, super-diagonal `dxinv2[1:-1]`, sub-diagonal its
negation. -/
def matr_base (x : ℕ → ℚ) (nr : ℕ) : Matrix (Fin nr) (Fin nr) ℚ :=
  Matrix.of fun i j =>
    if i = j then dxinv2 x nr i.val - dxinv2 x nr (i.val + 1)
    else if j.val = i.val + 1 then dxinv2 x nr (i.val + 1)
    else if i.val = j.val + 1 then -dxinv2 x nr (j.val + 1)
    else 0

/-- Clamped rewrite of the right-hand matrix: first and last rows zeroed. -/
def clamp_rhs (nr : ℕ) (M : Matrix (Fin nr) (Fin nr) ℚ) : Matrix (Fin nr) (Fin nr) ℚ :=
  Matrix.of fun i j =>
    if i.val = 0 ∨ i.val = nr - 1 then 0 else M i j

/-- The right-hand matrix of the spline system. -/
def matr (x : ℕ → ℚ) (nr : ℕ) (bc : String) : Matrix (Fin nr) (Fin nr) ℚ :=
  if bc = "clamped" then clamp_rhs nr (matr_base x nr) else matr_base x nr

/-- Computable dense inverse over `ℚ` (adjugate over determinant); the model
of the factorization behind `torch.solve`. -/
def matInvQ {n : ℕ} (A : Matrix (Fin n) (Fin n) ℚ) : Matrix (Fin n) (Fin n) ℚ :=
  A.det⁻¹ • A.adjugate

/-- Source: `spline_mat_inv, _ = torch.solve(matr, spline_mat)`: the solution `Z` of
`spline_mat ⬝ Z = matr`. -/
def spline_mat_inv (x : ℕ → ℚ) (nr : ℕ) (bc : String) : Matrix (Fin nr) (Fin nr) ℚ :=
  matInvQ (spline_mat x nr bc) * matr x nr bc

/-- The spline linear map as a plain doubly-indexed function (zero outside
the `nr × nr` block), convenient for the evaluator layer. -/
def spline_mat_inv_fun (x : ℕ → ℚ) (nr : ℕ) (bc : String) : ℕ → ℕ → ℚ :=
  fun i j =>
    if hi : i < nr then
      if hj : j < nr then spline_mat_inv x nr bc ⟨i, hi⟩ ⟨j, hj⟩ else 0
    else 0

/-- Source: `ks = matmul(spline_mat_inv, y)`: one matrix-vector product per ordinate
row. -/
def ksFromMat (M : ℕ → ℕ → ℚ) (nr : ℕ) (y : ℕ → ℚ) (i : ℕ) : ℚ :=
  ∑ j ∈ Finset.range nr, M i j * y j

/-! ## The interpolant facade (`BaseInterp1D` + `CubicSpline1D`)

`torch.min(x)` / `torch.max(x)` over the sample abscissas. -/

def xminOf (x : ℕ → ℚ) (nr : ℕ) : ℚ :=
  (List.range nr).foldl (fun m i => min m (x i)) (x 0)

def xmaxOf (x : ℕ → ℚ) (nr : ℕ) : ℚ :=
  (List.range nr).foldl (fun m i => max m (x i)) (x 0)

/-- Construction-time state of a `CubicSpline1D` instance. -/
structure Spline where
  nr : ℕ
  x : ℕ → ℚ
  xmin : ℚ
  xmax : ℚ
  extrap : ExtrapArg
  bc_type : String
  periodicRequired : Bool
  yIsGiven : Bool
  y : ℕ → ℚ
  splineMatInvF : ℕ → ℕ → ℚ
  ks : ℕ → ℚ

/-- Source: `check_and_get_extrap` (lines 206-212): default the extrapolation mode
from the boundary condition via a dictionary lookup; an unknown boundary
condition with no explicit `extrap` raises `KeyError` from that lookup. -/
def check_and_get_extrap (e : Option ExtrapArg) (bc : String) : Except Err ExtrapArg :=
  match e with
  | none =>
    if bc = "natural" then .ok (.str "nan")
    else if bc = "clamped" then .ok (.str "mirror")
    else .error .keyError
  | some e => .ok e

/-- Source: `check_periodic_value` (lines 214-216) on one ordinate row: in exact
arithmetic `allclose(y[...,0], y[...,-1])` is equality of the endpoints. -/
def check_periodic_value (y : ℕ → ℚ) (nr : ℕ) : Option Err :=
  if y 0 = y (nr - 1) then none else some .periodicityViolation

/-- The error, if any, raised by `CubicSpline1D.__init__` (lines 104-131):
first the default-extrapolation lookup, then the boundary-condition check,
then (when `y` is bound and periodic mode is active) the periodicity check.
The 1-D check on `x` cannot fail here because the embedding types `x` as
one-dimensional. -/
def construct_checks (nr : ℕ) (yArg : Option (ℕ → ℚ)) (bcArg : Option String)
    (extrapArg : Option ExtrapArg) : Option Err :=
  let bc := bcArg.getD "natural"
  match check_and_get_extrap extrapArg bc with
  | .error e => some e
  | .ok extrap =>
    if bc ≠ "natural" ∧ bc ≠ "clamped" then some .configurationError
    else
      match yArg with
      | some y => if extrap.isStr "periodic" then check_periodic_value y nr else none
      | none => none

/-- The state built by `CubicSpline1D.__init__` when no check fails. -/
def mkSpline (nr : ℕ) (x : ℕ → ℚ) (yArg : Option (ℕ → ℚ)) (bcArg : Option String)
    (extrapArg : Option ExtrapArg) : Spline :=
  let bc := bcArg.getD "natural"
  let extrap := match check_and_get_extrap extrapArg bc with
    | .ok e => e
    | .error _ => .str "nan"
  let zf := spline_mat_inv_fun x nr bc
  { nr := nr
    x := x
    xmin := xminOf x nr
    xmax := xmaxOf x nr
    extrap := extrap
    bc_type := bc
    periodicRequired := extrap.isStr "periodic"
    yIsGiven := yArg.isSome
    y := yArg.getD (fun _ => 0)
    splineMatInvF := zf
    ks := match yArg with
      | some y => ksFromMat zf nr y
      | none => fun _ => 0 }

/-- Source: `CubicSpline1D.__init__`: either the first error raised or the
constructed instance. -/
def constructCS (nr : ℕ) (x : ℕ → ℚ) (yArg : Option (ℕ → ℚ)) (bcArg : Option String)
    (extrapArg : Option ExtrapArg) : Except Err Spline :=
  match construct_checks nr yArg bcArg extrapArg with
  | some e => .error e
  | none => .ok (mkSpline nr x yArg bcArg extrapArg)

/-- The interior mask `xmin ≤ xq ≤ xmax` (line 38). -/
def interiorB (s : Spline) (q : ℚ) : Bool :=
  decide (s.xmin ≤ q ∧ q ≤ s.xmax)

/-- Rational floor-mod `a - b * ⌊a / b⌋`. -/
def ratMod (a b : ℚ) : ℚ := a - b * ⌊a / b⌋

/-- Modelled from the spec: `get_extrap_pos` of the absent
`extrap_utils.py` — remap an exterior abscissa into the domain.  `"bound"`
clamps to the nearest edge; `"mirror"` reflects as a triangular fold-back
wave; `"periodic"` wraps modulo the domain length. -/
def get_extrap_pos (e : ExtrapArg) (q xmin xmax : ℚ) : ℚ :=
  if e.isStr "bound" then max xmin (min q xmax)
  else if e.isStr "periodic" then xmin + ratMod (q - xmin) (xmax - xmin)
  else if e.isStr "mirror" then
    let u := ratMod (q - xmin) (2 * (xmax - xmin))
    if u ≤ xmax - xmin then xmin + u else xmin + (2 * (xmax - xmin) - u)
  else q

/-- Modelled from the spec: `get_extrap_val` of the absent
`extrap_utils.py` — value filled in for an exterior query under a value
mode: a numeric constant broadcasts, `"nan"` fills NaN, a callable is
applied to the exterior abscissa. -/
def get_extrap_val (e : ExtrapArg) (q : ℚ) : FVal :=
  match e with
  | .num c => .fin c
  | .fn f => .fin (f q)
  | .str _ => .nan

/-- Source: `yq[...,interp_mask] = yqinterp; yq[...,extrap_mask] = yqextrap`
(lines 54-56): merge the two sub-results back in original query order. -/
def scatterMask (mask : List Bool) (a b : List FVal) : List FVal :=
  match mask, a, b with
  | [], _, _ => []
  | true :: ms, v :: as2, bs => v :: scatterMask ms as2 bs
  | true :: _, [], _ => []
  | false :: ms, as2, v :: bs => v :: scatterMask ms as2 bs
  | false :: _, _, [] => []

/-- Source: `_interp` with the slope coefficients recomputed per call unless cached
(lines 136-139). -/
def interpCS (s : Spline) (xq : List ℚ) (y : ℕ → ℚ) : List ℚ :=
  let ks := if s.yIsGiven then s.ks else ksFromMat s.splineMatInvF s.nr y
  interp_vec s.x y ks s.nr xq

/-- The body of `BaseInterp1D.__call__` after the ordinate checks
(lines 38-57): all-interior shortcut, position-remap modes, value modes. -/
def callBody (s : Spline) (xq : List ℚ) (y : ℕ → ℚ) : List FVal :=
  if xq.all (interiorB s) then (interpCS s xq y).map FVal.fin
  else if s.extrap.isStr "mirror" || s.extrap.isStr "periodic"
      || s.extrap.isStr "bound" then
    let xq2 := xq.map (fun q =>
      if interiorB s q then q else get_extrap_pos s.extrap q s.xmin s.xmax)
    (interpCS s xq2 y).map FVal.fin
  else
    let yqin := (interpCS s (xq.filter (interiorB s)) y).map FVal.fin
    let yqex := (xq.filter (fun q => !interiorB s q)).map (get_extrap_val s.extrap)
    scatterMask (xq.map (interiorB s)) yqin yqex

/-- Source: `BaseInterp1D.__call__` (lines 22-57): the advisory warning, the
ordinate selection and checks, then the evaluation body. -/
def callCS (s : Spline) (xq : List ℚ) (yArg : Option (ℕ → ℚ)) :
    List Warn × Except Err (List FVal) :=
  let warns := if s.yIsGiven ∧ yArg.isSome then [Warn.conflictingInputAdvisory] else []
  let res : Except Err (List FVal) :=
    if s.yIsGiven then .ok (callBody s xq s.y)
    else
      match yArg with
      | none => .error .missingDataError
      | some y =>
        if s.periodicRequired then
          match check_periodic_value y s.nr with
          | some e => .error e
          | none => .ok (callBody s xq y)
        else .ok (callBody s xq y)
  (warns, res)

/-- Transcription of the claim text for the left-hand matrix: tridiagonal
with diagonal `2*(dxinv[i]+dxinv[i+1])` and off-diagonals `dxinv` over the
zero-padded inverse spacings; for clamped, first and last rows replaced by
identity rows. -/
def lhs_spec (x : ℕ → ℚ) (nr : ℕ) (bc : String) : Matrix (Fin nr) (Fin nr) ℚ :=
  Matrix.of fun i j =>
    if bc = "clamped" ∧ (i.val = 0 ∨ i.val = nr - 1) then (if i = j then 1 else 0)
    else if i = j then 2 * (dxinvPad x nr i.val + dxinvPad x nr (i.val + 1))
    else if j.val = i.val + 1 then dxinvPad x nr (i.val + 1)
    else if i.val = j.val + 1 then dxinvPad x nr (j.val + 1)
    else 0

/-- Transcription of the claim text for the right-hand matrix: diagonal
`3*(dxinv[i]^2 - dxinv[i+1]^2)`, super-diagonal `+3*dxinv[i+1]^2`,
sub-diagonal `-3*dxinv[i+1]^2`; for clamped, first and last rows zeroed. -/
def rhs_spec (x : ℕ → ℚ) (nr : ℕ) (bc : String) : Matrix (Fin nr) (Fin nr) ℚ :=
  Matrix.of fun i j =>
    if bc = "clamped" ∧ (i.val = 0 ∨ i.val = nr - 1) then 0
    else if i = j then 3 * (dxinvPad x nr i.val ^ 2 - dxinvPad x nr (i.val + 1) ^ 2)
    else if j.val = i.val + 1 then 3 * dxinvPad x nr (i.val + 1) ^ 2
    else if i.val = j.val + 1 then -(3 * dxinvPad x nr (j.val + 1) ^ 2)
    else 0

/-! ## Theorems -/

/-! ## Basic facts about segment location -/

theorem adjLt_trans {x : ℕ → ℚ} {nr : ℕ} (hx : ∀ i < nr - 1, x i < x (i + 1)) :
    ∀ i j, i < j → j < nr → x i < x j := by
  intro i j hij hj
  induction j with
  | zero => omega
  | succ m ih =>
    have hm : x m < x (m + 1) := hx m (by omega)
    rcases Nat.lt_or_ge i m with h | h
    · exact lt_trans (ih h (by omega)) hm
    · have : i = m := by omega
      subst this; exact hm

theorem searchsorted_le (x : ℕ → ℚ) (nr : ℕ) (v : ℚ) : searchsorted x nr v ≤ nr := by
  unfold searchsorted
  exact le_trans (Finset.card_filter_le _ _) (by simp)

/-- All indices before the insertion point are strictly below `v`. -/
theorem searchsorted_lt_of_lt {x : ℕ → ℚ} {nr : ℕ}
    (hx : ∀ i < nr - 1, x i < x (i + 1)) (v : ℚ) :
    ∀ i, i < searchsorted x nr v → x i < v := by
  intro i hi
  by_contra hge
  push_neg at hge
  have hsub : (Finset.range nr).filter (fun j => x j < v) ⊆ Finset.range i := by
    intro j hj
    simp only [Finset.mem_filter, Finset.mem_range] at hj
    simp only [Finset.mem_range]
    by_contra hji
    push_neg at hji
    rcases Nat.lt_or_ge i j with h | h
    · have hij : x i < x j := adjLt_trans hx i j h hj.1
      exact absurd hj.2 (not_lt.mpr (le_of_lt (lt_of_le_of_lt hge hij)))
    · have : i = j := by omega
      subst this
      exact absurd hj.2 (not_lt.mpr hge)
  have := Finset.card_le_card hsub
  simp only [Finset.card_range] at this
  unfold searchsorted at hi
  omega

/-- The entry at the insertion point (when it exists) is at least `v`. -/
theorem searchsorted_ge {x : ℕ → ℚ} {nr : ℕ}
    (hx : ∀ i < nr - 1, x i < x (i + 1)) (v : ℚ)
    (h : searchsorted x nr v < nr) : v ≤ x (searchsorted x nr v) := by
  set s := searchsorted x nr v with hs
  by_contra hlt
  push_neg at hlt
  have hsub : Finset.range (s + 1) ⊆ (Finset.range nr).filter (fun j => x j < v) := by
    intro j hj
    simp only [Finset.mem_range] at hj
    simp only [Finset.mem_filter, Finset.mem_range]
    refine ⟨by omega, ?_⟩
    rcases Nat.lt_or_ge j s with hjs | hjs
    · exact lt_trans (adjLt_trans hx j s hjs (by omega)) hlt
    · have : j = s := by omega
      subst this; exact hlt
  have := Finset.card_le_card hsub
  simp only [Finset.card_range] at this
  unfold searchsorted at hs
  omega

theorem idxr_ge_one {x : ℕ → ℚ} {nr : ℕ} (h2 : 2 ≤ nr) (v : ℚ) :
    1 ≤ idxrOf x nr v := by
  unfold idxrOf
  omega

theorem idxr_le {x : ℕ → ℚ} {nr : ℕ} (h2 : 2 ≤ nr) (v : ℚ) :
    idxrOf x nr v ≤ nr - 1 := by
  unfold idxrOf
  omega

theorem idxr_eq_idxl_succ {x : ℕ → ℚ} {nr : ℕ} (h2 : 2 ≤ nr) (v : ℚ) :
    idxrOf x nr v = idxlOf x nr v + 1 := by
  have := idxr_ge_one (x := x) h2 v
  unfold idxlOf
  omega

/-- The Horner and Hermite formulations agree at every query point
(exact arithmetic, any slope coefficients). -/
theorem horner_eq_hermite {nr : ℕ} (h2 : 2 ≤ nr) (x y ks : ℕ → ℚ) (q : ℚ) :
    interp_horner x y ks nr q = interp_hermite x y ks nr q := by
  simp only [interp_horner, interp_hermite]
  rw [idxr_eq_idxl_succ h2]
  ring

/-- Source: `_interp` is the pointwise Hermite evaluation regardless of which branch
the `numel`-based dispatch picks. -/
theorem interp_vec_eq_map {nr : ℕ} (h2 : 2 ≤ nr) (x y ks : ℕ → ℚ) (xq : List ℚ) :
    interp_vec x y ks nr xq = xq.map (interp_hermite x y ks nr) := by
  unfold interp_vec
  split
  · exact List.map_congr_left (fun q _ => horner_eq_hermite h2 x y ks q)
  · rfl

theorem searchsorted_at_knot {x : ℕ → ℚ} {nr : ℕ}
    (hx : ∀ i < nr - 1, x i < x (i + 1)) {j : ℕ} (hj : j < nr) :
    searchsorted x nr (x j) = j := by
  unfold searchsorted
  have : (Finset.range nr).filter (fun i => x i < x j) = Finset.range j := by
    ext i
    simp only [Finset.mem_filter, Finset.mem_range]
    constructor
    · rintro ⟨hi, hlt⟩
      by_contra hge
      push_neg at hge
      rcases Nat.lt_or_ge j i with h | h
      · exact absurd hlt (not_lt.mpr (le_of_lt (adjLt_trans hx j i h hi)))
      · have : j = i := by omega
        subst this
        exact absurd hlt (lt_irrefl _)
    · intro hij
      exact ⟨by omega, adjLt_trans hx i j hij hj⟩
  rw [this, Finset.card_range]

/-- Evaluating the Hermite form at a knot returns the ordinate there,
independently of the slope coefficients. -/
theorem interp_hermite_knot {x : ℕ → ℚ} {nr : ℕ} (h2 : 2 ≤ nr)
    (hx : ∀ i < nr - 1, x i < x (i + 1)) (y ks : ℕ → ℚ) {j : ℕ} (hj : j < nr) :
    interp_hermite x y ks nr (x j) = y j := by
  rcases Nat.eq_zero_or_pos j with hj0 | hjpos
  · subst hj0
    have hr : idxrOf x nr (x 0) = 1 := by
      unfold idxrOf
      rw [searchsorted_at_knot hx (by omega)]
      omega
    have hl : idxlOf x nr (x 0) = 0 := by
      unfold idxlOf; rw [hr]
    simp only [interp_hermite, hr, hl]
    simp
  · have hr : idxrOf x nr (x j) = j := by
      unfold idxrOf
      rw [searchsorted_at_knot hx hj]
      omega
    have hl : idxlOf x nr (x j) = j - 1 := by
      unfold idxlOf; rw [hr]
    have hlt : x (j - 1) < x j := by
      have := adjLt_trans hx (j - 1) j (by omega) hj
      exact this
    have hne : x j - x (j - 1) ≠ 0 := by
      intro h
      have : x j = x (j - 1) := by linarith
      exact absurd this (ne_of_gt hlt)
    simp only [interp_hermite, hr, hl]
    rw [div_self hne]
    ring

theorem matInvQ_eq_inv {n : ℕ} (A : Matrix (Fin n) (Fin n) ℚ) : matInvQ A = A⁻¹ := by
  rw [Matrix.inv_def, Ring.inverse_eq_inv]
  rfl

/-! ## Nonsingularity of the left-hand matrix (strict diagonal dominance) -/

theorem dxinv0_pos {x : ℕ → ℚ} {nr : ℕ} (hx : ∀ i < nr - 1, x i < x (i + 1))
    {i : ℕ} (hi : i < nr - 1) : 0 < dxinv0 x i := by
  unfold dxinv0
  exact one_div_pos.mpr (sub_pos.mpr (hx i hi))

theorem dxinvPad_zero (x : ℕ → ℚ) (nr : ℕ) : dxinvPad x nr 0 = 0 := by
  unfold dxinvPad; simp

theorem dxinvPad_top (x : ℕ → ℚ) (nr : ℕ) : dxinvPad x nr nr = 0 := by
  unfold dxinvPad; simp

theorem dxinvPad_mid (x : ℕ → ℚ) {nr i : ℕ} (h0 : i ≠ 0) (hn : i ≠ nr) :
    dxinvPad x nr i = dxinv0 x (i - 1) := by
  unfold dxinvPad
  rw [if_neg (by omega)]

theorem spline_mat_base_diag {x : ℕ → ℚ} {nr : ℕ} (k : Fin nr) :
    spline_mat_base x nr k k = diagL x nr k.val := by
  simp [spline_mat_base]

theorem spline_mat_base_super {x : ℕ → ℚ} {nr : ℕ} {i j : Fin nr}
    (h : j.val = i.val + 1) : spline_mat_base x nr i j = dxinv0 x i.val := by
  simp only [spline_mat_base, Matrix.of_apply]
  rw [if_neg (by intro he; subst he; omega), if_pos h]

theorem spline_mat_base_sub {x : ℕ → ℚ} {nr : ℕ} {i j : Fin nr}
    (h : i.val = j.val + 1) : spline_mat_base x nr i j = dxinv0 x j.val := by
  simp only [spline_mat_base, Matrix.of_apply]
  rw [if_neg (by intro he; subst he; omega), if_neg (by omega), if_pos h]

theorem spline_mat_base_far {x : ℕ → ℚ} {nr : ℕ} {i j : Fin nr}
    (hne : i ≠ j) (h1 : j.val ≠ i.val + 1) (h2 : i.val ≠ j.val + 1) :
    spline_mat_base x nr i j = 0 := by
  simp only [spline_mat_base, Matrix.of_apply]
  rw [if_neg hne, if_neg h1, if_neg h2]

theorem qnorm_eq (q : ℚ) : ‖q‖ = |(q : ℝ)| := by
  rw [← Rat.norm_cast_real, Real.norm_eq_abs]

theorem qnorm_of_pos {q : ℚ} (h : 0 < q) : ‖q‖ = (q : ℝ) := by
  rw [qnorm_eq, abs_of_pos (by exact_mod_cast h)]

theorem diagL_first {x : ℕ → ℚ} {nr : ℕ} (h2 : 2 ≤ nr) :
    diagL x nr 0 = dxinv0 x 0 * 2 := by
  unfold diagL
  rw [dxinvPad_zero, dxinvPad_mid x (by omega) (by omega)]
  norm_num

theorem diagL_last {x : ℕ → ℚ} {nr : ℕ} (h2 : 2 ≤ nr) :
    diagL x nr (nr - 1) = dxinv0 x (nr - 2) * 2 := by
  unfold diagL
  rw [show nr - 1 + 1 = nr by omega, dxinvPad_top,
    dxinvPad_mid x (by omega) (by omega), show nr - 1 - 1 = nr - 2 by omega]
  ring

theorem diagL_mid {x : ℕ → ℚ} {nr i : ℕ} (h0 : 0 < i) (hi : i < nr - 1) :
    diagL x nr i = (dxinv0 x (i - 1) + dxinv0 x i) * 2 := by
  unfold diagL
  rw [dxinvPad_mid x (by omega) (by omega), dxinvPad_mid x (by omega) (by omega),
    show i + 1 - 1 = i by omega]

/-- The left-hand spline matrix is strictly row-diagonally dominant for
strictly increasing abscissas, hence nonsingular (`torch.solve` succeeds). -/
theorem spline_mat_det_ne_zero {x : ℕ → ℚ} {nr : ℕ} (bc : String) (h2 : 2 ≤ nr)
    (hx : ∀ i < nr - 1, x i < x (i + 1)) : (spline_mat x nr bc).det ≠ 0 := by
  apply det_ne_zero_of_sum_row_lt_diag
  intro k
  by_cases hcl : bc = "clamped" ∧ (k.val = 0 ∨ k.val = nr - 1)
  · have hrowk : spline_mat x nr bc k k = 1 := by
      unfold spline_mat
      rw [if_pos hcl.1]
      unfold clamp_lhs
      simp only [Matrix.of_apply]
      rw [if_pos hcl.2]
      simp
    have hrow : ∀ j : Fin nr, j ≠ k → spline_mat x nr bc k j = 0 := by
      intro j hj
      unfold spline_mat
      rw [if_pos hcl.1]
      unfold clamp_lhs
      simp only [Matrix.of_apply]
      rw [if_pos hcl.2, if_neg (Ne.symm hj)]
    have hz : ∑ j ∈ Finset.univ.erase k, ‖spline_mat x nr bc k j‖ = 0 := by
      apply Finset.sum_eq_zero
      intro j hj
      rw [hrow j (Finset.ne_of_mem_erase hj), norm_zero]
    rw [hz, hrowk, qnorm_of_pos one_pos]
    norm_num
  · have hbase : ∀ j, spline_mat x nr bc k j = spline_mat_base x nr k j := by
      intro j
      unfold spline_mat
      by_cases hb : bc = "clamped"
      · rw [if_pos hb]
        unfold clamp_lhs
        simp only [Matrix.of_apply]
        rw [if_neg (fun hk => hcl ⟨hb, hk⟩)]
      · rw [if_neg hb]
    simp only [hbase]
    rcases Nat.eq_zero_or_pos k.val with hk0 | hkpos
    · -- first row: single off-diagonal entry at column 1
      have hj1 : (1 : ℕ) < nr := by omega
      have hsum : ∑ j ∈ Finset.univ.erase k, ‖spline_mat_base x nr k j‖ =
          ‖spline_mat_base x nr k ⟨1, hj1⟩‖ := by
        apply Finset.sum_eq_single_of_mem
        · exact Finset.mem_erase.mpr
            ⟨Fin.ne_of_val_ne (show (1 : ℕ) ≠ k.val by omega), Finset.mem_univ _⟩
        · intro b hb hbne
          rw [spline_mat_base_far (Ne.symm (Finset.ne_of_mem_erase hb))
            (fun hbv => hbne (Fin.ext (show b.val = 1 by omega)))
            (show k.val ≠ b.val + 1 by omega), norm_zero]
      rw [hsum, spline_mat_base_super (show (1 : ℕ) = k.val + 1 by omega),
        spline_mat_base_diag, hk0, diagL_first h2]
      have h0 : (0 : ℚ) < dxinv0 x 0 := dxinv0_pos hx (by omega)
      rw [qnorm_of_pos h0, qnorm_of_pos (by linarith)]
      have hc : (0 : ℝ) < (dxinv0 x 0 : ℝ) := by exact_mod_cast h0
      push_cast
      linarith
    · rcases Nat.lt_or_ge k.val (nr - 1) with hklt | hkge
      · -- middle row: off-diagonal entries at columns k-1 and k+1
        have hjl : k.val - 1 < nr := by omega
        have hjr : k.val + 1 < nr := by omega
        have hsum : ∑ j ∈ Finset.univ.erase k, ‖spline_mat_base x nr k j‖ =
            ‖spline_mat_base x nr k ⟨k.val - 1, hjl⟩‖ +
            ‖spline_mat_base x nr k ⟨k.val + 1, hjr⟩‖ := by
          apply Finset.sum_eq_add_of_mem
          · exact Finset.mem_erase.mpr
              ⟨Fin.ne_of_val_ne (show k.val - 1 ≠ k.val by omega), Finset.mem_univ _⟩
          · exact Finset.mem_erase.mpr
              ⟨Fin.ne_of_val_ne (show k.val + 1 ≠ k.val by omega), Finset.mem_univ _⟩
          · exact Fin.ne_of_val_ne (show k.val - 1 ≠ k.val + 1 by omega)
          · intro c hc hcne
            rw [spline_mat_base_far (Ne.symm (Finset.ne_of_mem_erase hc))
              (fun hcv => hcne.2 (Fin.ext (show c.val = k.val + 1 by omega)))
              (fun hcv => hcne.1 (Fin.ext (show c.val = k.val - 1 by omega))), norm_zero]
        rw [hsum, spline_mat_base_sub (show k.val = (k.val - 1) + 1 by omega),
          spline_mat_base_super (show k.val + 1 = k.val + 1 from rfl),
          spline_mat_base_diag, diagL_mid hkpos hklt]
        have ha : (0 : ℚ) < dxinv0 x (k.val - 1) := dxinv0_pos hx (by omega)
        have hb2 : (0 : ℚ) < dxinv0 x k.val := dxinv0_pos hx hklt
        rw [qnorm_of_pos ha, qnorm_of_pos hb2, qnorm_of_pos (by linarith)]
        have hca : (0 : ℝ) < (dxinv0 x (k.val - 1) : ℝ) := by exact_mod_cast ha
        have hcb : (0 : ℝ) < (dxinv0 x k.val : ℝ) := by exact_mod_cast hb2
        push_cast
        linarith
      · -- last row: single off-diagonal entry at column nr-2
        have hklast : k.val = nr - 1 := by
          have := k.isLt
          omega
        have hj0 : nr - 2 < nr := by omega
        have hsum : ∑ j ∈ Finset.univ.erase k, ‖spline_mat_base x nr k j‖ =
            ‖spline_mat_base x nr k ⟨nr - 2, hj0⟩‖ := by
          apply Finset.sum_eq_single_of_mem
          · exact Finset.mem_erase.mpr
              ⟨Fin.ne_of_val_ne (show nr - 2 ≠ k.val by omega), Finset.mem_univ _⟩
          · intro b hb hbne
            have hbv : b.val < nr := b.isLt
            rw [spline_mat_base_far (Ne.symm (Finset.ne_of_mem_erase hb))
              (show b.val ≠ k.val + 1 by omega)
              (fun hbv2 => hbne (Fin.ext (show b.val = nr - 2 by omega))), norm_zero]
        rw [hsum, spline_mat_base_sub (show k.val = (nr - 2) + 1 by omega),
          spline_mat_base_diag, hklast, diagL_last h2]
        have ha : (0 : ℚ) < dxinv0 x (nr - 2) := dxinv0_pos hx (by omega)
        rw [qnorm_of_pos ha, qnorm_of_pos (by linarith)]
        have hca : (0 : ℝ) < (dxinv0 x (nr - 2) : ℝ) := by exact_mod_cast ha
        push_cast
        linarith

/-- The computed `spline_mat_inv` solves the system `spline_mat ⬝ Z = matr`. -/
theorem spline_mat_mul_inv {x : ℕ → ℚ} {nr : ℕ} (bc : String) (h2 : 2 ≤ nr)
    (hx : ∀ i < nr - 1, x i < x (i + 1)) :
    spline_mat x nr bc * spline_mat_inv x nr bc = matr x nr bc := by
  unfold spline_mat_inv
  rw [matInvQ_eq_inv]
  exact Matrix.mul_nonsing_inv_cancel_left _ _
    (isUnit_iff_ne_zero.mpr (spline_mat_det_ne_zero bc h2 hx))

theorem spline_mat_clamped_row {x : ℕ → ℚ} {nr : ℕ} {i : Fin nr}
    (hi : i.val = 0 ∨ i.val = nr - 1) (j : Fin nr) :
    spline_mat x nr "clamped" i j = if i = j then 1 else 0 := by
  unfold spline_mat
  rw [if_pos rfl]
  unfold clamp_lhs
  simp only [Matrix.of_apply]
  rw [if_pos hi]

theorem matr_clamped_row {x : ℕ → ℚ} {nr : ℕ} {i : Fin nr}
    (hi : i.val = 0 ∨ i.val = nr - 1) (j : Fin nr) :
    matr x nr "clamped" i j = 0 := by
  unfold matr
  rw [if_pos rfl]
  unfold clamp_rhs
  simp only [Matrix.of_apply]
  rw [if_pos hi]

/-- Under the clamped boundary condition the first and last rows of the
spline linear map vanish identically. -/
theorem spline_mat_inv_clamped_boundary_row {x : ℕ → ℚ} {nr : ℕ} (h2 : 2 ≤ nr)
    (hx : ∀ i < nr - 1, x i < x (i + 1)) {i : Fin nr}
    (hi : i.val = 0 ∨ i.val = nr - 1) (j : Fin nr) :
    spline_mat_inv x nr "clamped" i j = 0 := by
  have hsolve := spline_mat_mul_inv (x := x) "clamped" h2 hx
  have hentry : (spline_mat x nr "clamped" * spline_mat_inv x nr "clamped") i j
      = matr x nr "clamped" i j := by rw [hsolve]
  rw [Matrix.mul_apply, matr_clamped_row hi] at hentry
  have hrow : ∑ k, spline_mat x nr "clamped" i k * spline_mat_inv x nr "clamped" k j
      = spline_mat_inv x nr "clamped" i j := by
    rw [Finset.sum_congr rfl (fun k _ => by rw [spline_mat_clamped_row hi k])]
    simp [ite_mul]
  rw [hrow] at hentry
  exact hentry

theorem xminOf_eq (x : ℕ → ℚ) :
    ∀ nr, 1 ≤ nr → (∀ i < nr - 1, x i < x (i + 1)) → xminOf x nr = x 0 := by
  intro nr
  induction nr with
  | zero => omega
  | succ n ih =>
    intro _ hx
    unfold xminOf
    rw [List.range_succ, List.foldl_append]
    simp only [List.foldl_cons, List.foldl_nil]
    rcases Nat.eq_zero_or_pos n with h0 | hpos
    · subst h0
      simp
    · have hx2 : ∀ i < n - 1, x i < x (i + 1) := fun i hi => hx i (by omega)
      rw [show (List.range n).foldl (fun m i => min m (x i)) (x 0) = xminOf x n from rfl,
        ih hpos hx2]
      exact min_eq_left (le_of_lt (adjLt_trans hx 0 n hpos (by omega)))

theorem xmaxOf_eq (x : ℕ → ℚ) :
    ∀ nr, 1 ≤ nr → (∀ i < nr - 1, x i < x (i + 1)) → xmaxOf x nr = x (nr - 1) := by
  intro nr
  induction nr with
  | zero => omega
  | succ n ih =>
    intro _ hx
    unfold xmaxOf
    rw [List.range_succ, List.foldl_append]
    simp only [List.foldl_cons, List.foldl_nil]
    rcases Nat.eq_zero_or_pos n with h0 | hpos
    · subst h0
      simp
    · have hx2 : ∀ i < n - 1, x i < x (i + 1) := fun i hi => hx i (by omega)
      rw [show (List.range n).foldl (fun m i => max m (x i)) (x 0) = xmaxOf x n from rfl,
        ih hpos hx2]
      have hle : x (n - 1) ≤ x n :=
        le_of_lt (adjLt_trans hx (n - 1) n (by omega) (by omega))
      simp only [Nat.add_sub_cancel]
      exact max_eq_right hle

theorem scatterMask_map (pr : ℚ → Bool) (f g : ℚ → FVal) (l : List ℚ) :
    scatterMask (l.map pr) ((l.filter pr).map f)
      ((l.filter (fun a => !pr a)).map g)
      = l.map (fun a => if pr a then f a else g a) := by
  induction l with
  | nil => rfl
  | cons a t ih =>
    by_cases h : pr a
    · simp [List.filter_cons, h, scatterMask, ih]
    · simp only [Bool.not_eq_true] at h
      simp [List.filter_cons, h, scatterMask, ih]

theorem interpCS_eq_map {s : Spline} (h2 : 2 ≤ s.nr) (xq : List ℚ) (y : ℕ → ℚ) :
    interpCS s xq y = xq.map (interp_hermite s.x y
      (if s.yIsGiven then s.ks else ksFromMat s.splineMatInvF s.nr y) s.nr) := by
  unfold interpCS
  exact interp_vec_eq_map h2 _ _ _ _

/-- Value-mode evaluation (`constant`, `nan`, callable): the merged output is
the original query list mapped pointwise, interior queries through the
spline and exterior ones through the fill value. -/
theorem callBody_value {s : Spline} (h2 : 2 ≤ s.nr)
    (hmode : (s.extrap.isStr "mirror" || s.extrap.isStr "periodic"
      || s.extrap.isStr "bound") = false) (xq : List ℚ) (y : ℕ → ℚ) :
    callBody s xq y = xq.map (fun q =>
      if interiorB s q then
        FVal.fin (interp_hermite s.x y
          (if s.yIsGiven then s.ks else ksFromMat s.splineMatInvF s.nr y) s.nr q)
      else get_extrap_val s.extrap q) := by
  unfold callBody
  by_cases hall : xq.all (interiorB s) = true
  · rw [if_pos hall, interpCS_eq_map h2, List.map_map]
    apply List.map_congr_left
    intro q hq
    have hint := List.all_eq_true.mp hall q hq
    simp [Function.comp, hint]
  · rw [if_neg hall, hmode]
    simp only [Bool.false_eq_true, if_false]
    rw [interpCS_eq_map h2, List.map_map]
    exact scatterMask_map (interiorB s) _ (get_extrap_val s.extrap) xq

/-- Position-remap evaluation (`mirror`, `periodic`, `bound`): the output is
the query list with exterior abscissas remapped, then evaluated through the
spline in one pass. -/
theorem callBody_remap {s : Spline} (h2 : 2 ≤ s.nr)
    (hmode : (s.extrap.isStr "mirror" || s.extrap.isStr "periodic"
      || s.extrap.isStr "bound") = true) (xq : List ℚ) (y : ℕ → ℚ) :
    callBody s xq y = xq.map (fun q =>
      FVal.fin (interp_hermite s.x y
        (if s.yIsGiven then s.ks else ksFromMat s.splineMatInvF s.nr y) s.nr
        (if interiorB s q then q else get_extrap_pos s.extrap q s.xmin s.xmax))) := by
  unfold callBody
  by_cases hall : xq.all (interiorB s) = true
  · rw [if_pos hall, interpCS_eq_map h2, List.map_map]
    apply List.map_congr_left
    intro q hq
    have hint := List.all_eq_true.mp hall q hq
    simp [Function.comp, hint]
  · rw [if_neg hall, hmode]
    simp only [if_true]
    rw [interpCS_eq_map h2, List.map_map, List.map_map]
    rfl

theorem mkSpline_nr (nr : ℕ) (x : ℕ → ℚ) (yA : Option (ℕ → ℚ)) (bcA : Option String)
    (eA : Option ExtrapArg) : (mkSpline nr x yA bcA eA).nr = nr := rfl

theorem mkSpline_x (nr : ℕ) (x : ℕ → ℚ) (yA : Option (ℕ → ℚ)) (bcA : Option String)
    (eA : Option ExtrapArg) : (mkSpline nr x yA bcA eA).x = x := rfl

theorem mkSpline_xmin (nr : ℕ) (x : ℕ → ℚ) (yA : Option (ℕ → ℚ)) (bcA : Option String)
    (eA : Option ExtrapArg) : (mkSpline nr x yA bcA eA).xmin = xminOf x nr := rfl

theorem mkSpline_xmax (nr : ℕ) (x : ℕ → ℚ) (yA : Option (ℕ → ℚ)) (bcA : Option String)
    (eA : Option ExtrapArg) : (mkSpline nr x yA bcA eA).xmax = xmaxOf x nr := rfl

theorem mkSpline_yIsGiven (nr : ℕ) (x : ℕ → ℚ) (yA : Option (ℕ → ℚ))
    (bcA : Option String) (eA : Option ExtrapArg) :
    (mkSpline nr x yA bcA eA).yIsGiven = yA.isSome := rfl

theorem mkSpline_y (nr : ℕ) (x : ℕ → ℚ) (y : ℕ → ℚ) (bcA : Option String)
    (eA : Option ExtrapArg) : (mkSpline nr x (some y) bcA eA).y = y := rfl

theorem mkSpline_ks (nr : ℕ) (x : ℕ → ℚ) (y : ℕ → ℚ) (bcA : Option String)
    (eA : Option ExtrapArg) : (mkSpline nr x (some y) bcA eA).ks
      = ksFromMat (spline_mat_inv_fun x nr (bcA.getD "natural")) nr y := rfl

theorem mkSpline_extrap (nr : ℕ) (x : ℕ → ℚ) (yA : Option (ℕ → ℚ))
    (bcA : Option String) (eA : Option ExtrapArg) :
    (mkSpline nr x yA bcA eA).extrap =
      (match check_and_get_extrap eA (bcA.getD "natural") with
        | .ok e => e
        | .error _ => .str "nan") := rfl

/-- A call on an instance with bound ordinates and no call-time `y`. -/
theorem callCS_bound (s : Spline) (hs : s.yIsGiven = true) (xq : List ℚ) :
    callCS s xq none = ([], .ok (callBody s xq s.y)) := by
  simp [callCS, hs]

/-- A call on an instance with bound ordinates and a call-time `y`: the
advisory is raised and the call-time ordinates are discarded. -/
theorem callCS_bound_conflict (s : Spline) (hs : s.yIsGiven = true) (xq : List ℚ)
    (y2 : ℕ → ℚ) :
    callCS s xq (some y2) = ([Warn.conflictingInputAdvisory], .ok (callBody s xq s.y)) := by
  simp [callCS, hs]

/-- C4: segment location is the clamped right-open binary search: `idxr` is
the first index with `x[idxr] ≥ xq` clamped into `[1, nr-1]`, `idxl` its
predecessor; the indices always satisfy `0 ≤ idxl < idxr ≤ nr-1`, so the
addressed segment is valid and has nonzero width for every query, interior
or not. -/
theorem claim_C4 (x : ℕ → ℚ) (nr : ℕ) (h2 : 2 ≤ nr)
    (hx : ∀ i < nr - 1, x i < x (i + 1)) (v : ℚ) :
    (∀ i, i < searchsorted x nr v → x i < v) ∧
    (searchsorted x nr v < nr → v ≤ x (searchsorted x nr v)) ∧
    idxrOf x nr v = min (max (searchsorted x nr v) 1) (nr - 1) ∧
    idxlOf x nr v = idxrOf x nr v - 1 ∧
    idxlOf x nr v < idxrOf x nr v ∧
    idxrOf x nr v ≤ nr - 1 ∧
    x (idxlOf x nr v) < x (idxrOf x nr v) := by
  have h1 : 1 ≤ idxrOf x nr v := idxr_ge_one h2 v
  have hle : idxrOf x nr v ≤ nr - 1 := idxr_le h2 v
  have hlt : idxlOf x nr v < idxrOf x nr v := by
    unfold idxlOf
    omega
  refine ⟨searchsorted_lt_of_lt hx v, fun h => searchsorted_ge hx v h, rfl, rfl,
    hlt, hle, ?_⟩
  exact adjLt_trans hx _ _ hlt (by omega)

theorem claim_C4_witness :
    idxlOf (fun i => if i = 0 then 0 else if i = 1 then 1 else if i = 2 then 2 else 3)
        4 (5/2)
      < idxrOf (fun i => if i = 0 then 0 else if i = 1 then 1 else if i = 2 then 2 else 3)
        4 (5/2) :=
  (claim_C4 _ 4 (by norm_num) (by decide) (5/2)).2.2.2.2.1

/-- C3: the polynomial (Horner) formulation and the Hermite-basis
formulation compute the same value at every query point, and the code picks
the polynomial form exactly when the query has more elements than the
sample grid. -/
theorem claim_C3 (x y ks : ℕ → ℚ) (nr : ℕ) (h2 : 2 ≤ nr) (q : ℚ) (xq : List ℚ) :
    interp_horner x y ks nr q = interp_hermite x y ks nr q ∧
    (xq.length > nr → interp_vec x y ks nr xq = xq.map (interp_horner x y ks nr)) ∧
    (¬xq.length > nr → interp_vec x y ks nr xq = xq.map (interp_hermite x y ks nr)) := by
  refine ⟨horner_eq_hermite h2 x y ks q, fun h => ?_, fun h => ?_⟩
  · unfold interp_vec
    rw [if_pos h]
  · unfold interp_vec
    rw [if_neg h]

theorem claim_C3_witness :
    interp_horner (fun i => if i = 0 then 0 else if i = 1 then 1 else if i = 2 then 2 else 3)
        (fun i => if i = 0 then 1 else if i = 1 then 3 else if i = 2 then 0 else 2)
        (fun _ => 1) 4 (5/2)
      = interp_hermite (fun i => if i = 0 then 0 else if i = 1 then 1 else if i = 2 then 2 else 3)
        (fun i => if i = 0 then 1 else if i = 1 then 3 else if i = 2 then 0 else 2)
        (fun _ => 1) 4 (5/2) :=
  (claim_C3 _ _ _ 4 (by norm_num) (5/2) []).1

theorem knot_interior {x : ℕ → ℚ} {nr : ℕ} (h1 : 1 ≤ nr)
    (hx : ∀ i < nr - 1, x i < x (i + 1)) {j : ℕ} (hj : j < nr) :
    x 0 ≤ x j ∧ x j ≤ x (nr - 1) := by
  constructor
  · rcases Nat.eq_zero_or_pos j with h0 | hpos
    · rw [h0]
    · exact le_of_lt (adjLt_trans hx 0 j hpos hj)
  · rcases Nat.lt_or_ge j (nr - 1) with hlt | hge
    · exact le_of_lt (adjLt_trans hx j (nr - 1) hlt (by omega))
    · have : j = nr - 1 := by omega
      rw [this]

/-- C1: for strictly increasing `x` with `nr ≥ 4`, construction succeeds for
both boundary conditions and evaluating the interpolant at the sample
abscissas themselves returns `y` exactly. -/
theorem claim_C1 (x y : ℕ → ℚ) (nr : ℕ) (h4 : 4 ≤ nr)
    (hx : ∀ i < nr - 1, x i < x (i + 1)) (bc : String)
    (hbc : bc = "natural" ∨ bc = "clamped") :
    constructCS nr x (some y) (some bc) none
      = .ok (mkSpline nr x (some y) (some bc) none) ∧
    callCS (mkSpline nr x (some y) (some bc) none) ((List.range nr).map x) none
      = ([], .ok ((List.range nr).map (fun j => FVal.fin (y j)))) := by
  have h2 : 2 ≤ nr := by omega
  constructor
  · rcases hbc with h | h <;> subst h <;> rfl
  · set s := mkSpline nr x (some y) (some bc) none with hsdef
    have hsy : s.yIsGiven = true := rfl
    rw [callCS_bound s hsy]
    have hall : ((List.range nr).map x).all (interiorB s) = true := by
      rw [List.all_eq_true]
      intro q hq
      rw [List.mem_map] at hq
      obtain ⟨j, hj, rfl⟩ := hq
      rw [List.mem_range] at hj
      unfold interiorB
      rw [decide_eq_true_eq]
      have hk := knot_interior (by omega) hx hj
      rw [show s.xmin = xminOf x nr from rfl, show s.xmax = xmaxOf x nr from rfl,
        xminOf_eq x nr (by omega) hx, xmaxOf_eq x nr (by omega) hx]
      exact hk
    have hbody : callBody s ((List.range nr).map x) s.y
        = (List.range nr).map (fun j => FVal.fin (y j)) := by
      unfold callBody
      rw [if_pos hall]
      have h2s : 2 ≤ s.nr := h2
      rw [interpCS_eq_map h2s, List.map_map, List.map_map]
      apply List.map_congr_left
      intro j hj
      rw [List.mem_range] at hj
      simp only [Function.comp]
      simp only [hsdef, mkSpline_x, mkSpline_y, mkSpline_nr]
      exact congrArg FVal.fin (interp_hermite_knot h2 hx y _ hj)
    rw [hbody]

theorem claim_C1_witness :
    callCS (mkSpline 4 (fun i => if i = 0 then 0 else if i = 1 then 1 else if i = 2 then 2 else 3)
        (some (fun i => if i = 0 then 1 else if i = 1 then 3 else if i = 2 then 0 else 2))
        (some "natural") none)
      ((List.range 4).map (fun i => if i = 0 then 0 else if i = 1 then 1 else if i = 2 then 2 else 3)) none
      = ([], .ok ((List.range 4).map (fun j => FVal.fin
          ((fun i => if i = 0 then 1 else if i = 1 then 3 else if i = 2 then 0 else 2) j)))) :=
  (claim_C1 _ _ 4 (by norm_num) (by decide) "natural" (Or.inl rfl)).2

/-- C8: supplying `y` both at construction and at call time is non-fatal:
the advisory warning is raised, the call-time ordinates are discarded, and
the result equals that of the same call without the call-time `y`. -/
theorem claim_C8 (nr : ℕ) (x y y2 : ℕ → ℚ) (bcA : Option String)
    (eA : Option ExtrapArg) (xq : List ℚ) :
    callCS (mkSpline nr x (some y) bcA eA) xq (some y2)
      = ([Warn.conflictingInputAdvisory],
         (callCS (mkSpline nr x (some y) bcA eA) xq none).2) := by
  rw [callCS_bound_conflict _ rfl, callCS_bound _ rfl]

/-- C7: the periodicity requirement `y[...,0] = y[...,-1]`: with bound
ordinates it is checked once at construction (failing construction with
`PeriodicityViolation` exactly when the endpoints differ, and not failing
afterwards at call time); with unbound ordinates it is checked at every
call with the supplied `y`, failing exactly when the endpoints differ. -/
theorem claim_C7 (nr : ℕ) (x y : ℕ → ℚ) (bc : String)
    (hbc : bc = "natural" ∨ bc = "clamped") (xq : List ℚ) :
    (y 0 ≠ y (nr - 1) →
      constructCS nr x (some y) (some bc) (some (.str "periodic"))
        = .error .periodicityViolation) ∧
    (y 0 = y (nr - 1) →
      constructCS nr x (some y) (some bc) (some (.str "periodic"))
        = .ok (mkSpline nr x (some y) (some bc) (some (.str "periodic")))) ∧
    (callCS (mkSpline nr x (some y) (some bc) (some (.str "periodic"))) xq none).2
      = .ok (callBody (mkSpline nr x (some y) (some bc) (some (.str "periodic"))) xq y) ∧
    (y 0 ≠ y (nr - 1) →
      (callCS (mkSpline nr x none (some bc) (some (.str "periodic"))) xq (some y)).2
        = .error .periodicityViolation) ∧
    (y 0 = y (nr - 1) →
      (callCS (mkSpline nr x none (some bc) (some (.str "periodic"))) xq (some y)).2
        = .ok (callBody (mkSpline nr x none (some bc) (some (.str "periodic"))) xq y)) := by
  have hchk : construct_checks nr (some y) (some bc) (some (.str "periodic"))
      = (if y 0 = y (nr - 1) then none else some Err.periodicityViolation) := by
    rcases hbc with h | h <;> subst h <;> rfl
  have hcall : (callCS (mkSpline nr x none (some bc) (some (.str "periodic"))) xq (some y)).2
      = (match check_periodic_value y nr with
         | some e => .error e
         | none => .ok (callBody (mkSpline nr x none (some bc) (some (.str "periodic"))) xq y)) := rfl
  refine ⟨fun h => ?_, fun h => ?_, ?_, fun h => ?_, fun h => ?_⟩
  · unfold constructCS
    rw [hchk, if_neg h]
  · unfold constructCS
    rw [hchk, if_pos h]
  · have := callCS_bound (mkSpline nr x (some y) (some bc) (some (.str "periodic"))) rfl xq
    rw [this]
    rfl
  · rw [hcall]
    unfold check_periodic_value
    rw [if_neg h]
  · rw [hcall]
    unfold check_periodic_value
    rw [if_pos h]

theorem claim_C7_witness :
    constructCS 4 (fun i => if i = 0 then 0 else if i = 1 then 1 else if i = 2 then 2 else 3)
      (some (fun i => if i = 0 then 1 else if i = 1 then 3 else if i = 2 then 0 else 2))
      (some "natural") (some (.str "periodic")) = .error .periodicityViolation :=
  (claim_C7 4 _ _ "natural" (Or.inl rfl) []).1 (by decide)

/-- C9 counterexample: with an unrecognized boundary condition and `extrap`
left unspecified, construction fails in the default-extrapolation
dictionary lookup with `KeyError`, not with the unsupported-boundary-
condition `ConfigurationError` the claim requires. -/
theorem claim_C9_counterexample :
    constructCS 4 (fun i => if i = 0 then 0 else if i = 1 then 1 else if i = 2 then 2 else 3)
      none (some "not-a-knot") none = .error Err.keyError
    ∧ Err.keyError ≠ Err.configurationError := by
  exact ⟨rfl, by decide⟩

/-- C9 (amended): for a boundary condition outside {natural, clamped},
construction fails with `ConfigurationError` whenever an extrapolation mode
is supplied explicitly, but with `KeyError` (from the bc-indexed default-
extrapolation dictionary) when `extrap` is left unspecified. -/
theorem claim_C9 (nr : ℕ) (x : ℕ → ℚ) (yA : Option (ℕ → ℚ)) (bc : String)
    (hbc : bc ≠ "natural" ∧ bc ≠ "clamped") :
    (∀ e : ExtrapArg, constructCS nr x yA (some bc) (some e)
      = .error .configurationError) ∧
    constructCS nr x yA (some bc) none = .error Err.keyError := by
  constructor
  · intro e
    have hc : construct_checks nr yA (some bc) (some e) = some .configurationError := by
      unfold construct_checks check_and_get_extrap
      simp only [Option.getD_some]
      rw [if_pos hbc]
    unfold constructCS
    rw [hc]
  · have hc : construct_checks nr yA (some bc) none = some Err.keyError := by
      unfold construct_checks check_and_get_extrap
      simp only [Option.getD_some]
      rw [if_neg hbc.1, if_neg hbc.2]
    unfold constructCS
    rw [hc]

theorem claim_C9_witness :
    constructCS 4 (fun i => if i = 0 then 0 else if i = 1 then 1 else if i = 2 then 2 else 3)
      none (some "foo") none = .error Err.keyError :=
  (claim_C9 4 _ none "foo" ⟨by decide, by decide⟩).2

/-- C5: with `extrap="bound"` every query strictly below `xmin` evaluates to
`y[...,0]`, every query strictly above `xmax` evaluates to `y[...,-1]`, and
interior queries evaluate through the spline unchanged (the exterior
abscissa is clamped to the nearest edge, a knot, before evaluation). -/
theorem claim_C5 (nr : ℕ) (x y : ℕ → ℚ) (h2 : 2 ≤ nr)
    (hx : ∀ i < nr - 1, x i < x (i + 1)) (bcA : Option String) (xq : List ℚ) :
    (callCS (mkSpline nr x (some y) bcA (some (.str "bound"))) xq none).2
      = .ok (xq.map (fun q =>
          if q < x 0 then FVal.fin (y 0)
          else if x (nr - 1) < q then FVal.fin (y (nr - 1))
          else FVal.fin (interp_hermite x y
            (mkSpline nr x (some y) bcA (some (.str "bound"))).ks nr q))) := by
  set s := mkSpline nr x (some y) bcA (some (.str "bound")) with hsdef
  have hres : (callCS s xq none).2 = .ok (callBody s xq s.y) := by
    rw [callCS_bound s rfl]
  rw [hres]
  have hmode : (s.extrap.isStr "mirror" || s.extrap.isStr "periodic"
      || s.extrap.isStr "bound") = true := rfl
  have h2s : 2 ≤ s.nr := h2
  rw [callBody_remap h2s hmode]
  refine congrArg Except.ok (List.map_congr_left ?_)
  intro q _
  have hxmin : s.xmin = x 0 := by
    rw [hsdef, mkSpline_xmin, xminOf_eq x nr (by omega) hx]
  have hxmax : s.xmax = x (nr - 1) := by
    rw [hsdef, mkSpline_xmax, xmaxOf_eq x nr (by omega) hx]
  have hx0max : x 0 ≤ x (nr - 1) := (knot_interior (by omega) hx (by omega)).2
  have hpos : get_extrap_pos s.extrap q s.xmin s.xmax = max (x 0) (min q (x (nr - 1))) := by
    have : s.extrap = ExtrapArg.str "bound" := rfl
    rw [this, hxmin, hxmax]
    rfl
  have hksel : (if s.yIsGiven then s.ks else ksFromMat s.splineMatInvF s.nr s.y) = s.ks := rfl
  have hsy : s.y = y := rfl
  have hsx : s.x = x := rfl
  have hsnr : s.nr = nr := rfl
  rw [hksel, hsy, hsx, hsnr, hpos]
  by_cases hlo : q < x 0
  · have hint : interiorB s q = false := by
      simp only [interiorB, hxmin, hxmax, decide_eq_false_iff_not]
      exact fun hc => absurd hc.1 (not_le.mpr hlo)
    rw [if_neg (by simp [hint]), if_pos hlo]
    have hmin : min q (x (nr - 1)) = q := min_eq_left (le_trans (le_of_lt hlo) hx0max)
    have hmax : max (x 0) q = x 0 := max_eq_left (le_of_lt hlo)
    rw [hmin, hmax]
    exact congrArg FVal.fin (interp_hermite_knot h2 hx y s.ks (by omega))
  · by_cases hhi : x (nr - 1) < q
    · have hint : interiorB s q = false := by
        simp only [interiorB, hxmin, hxmax, decide_eq_false_iff_not]
        exact fun hc => absurd hc.2 (not_le.mpr hhi)
      rw [if_neg (by simp [hint]), if_neg (not_lt.mpr (le_of_not_lt hlo)), if_pos hhi]
      have hmin : min q (x (nr - 1)) = x (nr - 1) := min_eq_right (le_of_lt hhi)
      have hmax : max (x 0) (x (nr - 1)) = x (nr - 1) := max_eq_right hx0max
      rw [hmin, hmax]
      exact congrArg FVal.fin (interp_hermite_knot h2 hx y s.ks (by omega))
    · have hint : interiorB s q = true := by
        simp only [interiorB, hxmin, hxmax, decide_eq_true_eq]
        exact ⟨le_of_not_lt hlo, le_of_not_lt hhi⟩
      rw [if_pos (by simp [hint]), if_neg hlo, if_neg hhi]

theorem claim_C5_witness :
    (callCS (mkSpline 4 (fun i => if i = 0 then 0 else if i = 1 then 1 else if i = 2 then 2 else 3)
        (some (fun i => if i = 0 then 1 else if i = 1 then 3 else if i = 2 then 0 else 2))
        (some "natural") (some (.str "bound"))) [(-1 : ℚ), 4] none).2
      = .ok ([(-1 : ℚ), 4].map (fun q =>
          if q < (fun i => if i = 0 then 0 else if i = 1 then 1 else if i = 2 then 2 else (3 : ℚ)) 0
          then FVal.fin ((fun i => if i = 0 then 1 else if i = 1 then 3 else if i = 2 then 0 else (2 : ℚ)) 0)
          else if (fun i => if i = 0 then 0 else if i = 1 then 1 else if i = 2 then 2 else (3 : ℚ)) (4 - 1) < q
          then FVal.fin ((fun i => if i = 0 then 1 else if i = 1 then 3 else if i = 2 then 0 else (2 : ℚ)) (4 - 1))
          else FVal.fin (interp_hermite
            (fun i => if i = 0 then 0 else if i = 1 then 1 else if i = 2 then 2 else 3)
            (fun i => if i = 0 then 1 else if i = 1 then 3 else if i = 2 then 0 else 2)
            (mkSpline 4 (fun i => if i = 0 then 0 else if i = 1 then 1 else if i = 2 then 2 else 3)
              (some (fun i => if i = 0 then 1 else if i = 1 then 3 else if i = 2 then 0 else 2))
              (some "natural") (some (.str "bound"))).ks 4 q))) :=
  claim_C5 4 _ _ (by norm_num) (by decide) (some "natural") [(-1 : ℚ), 4]

/-- C6: with `extrap="nan"` the output matches the query list position by
position: every out-of-domain query position holds NaN and every in-domain
position holds the finite spline value (interior and exterior sub-results
are merged back by mask, preserving the original shape and order). -/
theorem claim_C6 (nr : ℕ) (x y : ℕ → ℚ) (h2 : 2 ≤ nr)
    (hx : ∀ i < nr - 1, x i < x (i + 1)) (xq : List ℚ) :
    (callCS (mkSpline nr x (some y) (some "natural") (some (.str "nan"))) xq none).2
      = .ok (xq.map (fun q =>
          if x 0 ≤ q ∧ q ≤ x (nr - 1) then
            FVal.fin (interp_hermite x y
              (mkSpline nr x (some y) (some "natural") (some (.str "nan"))).ks nr q)
          else FVal.nan)) := by
  set s := mkSpline nr x (some y) (some "natural") (some (.str "nan")) with hsdef
  have hres : (callCS s xq none).2 = .ok (callBody s xq s.y) := by
    rw [callCS_bound s rfl]
  rw [hres]
  have hmode : (s.extrap.isStr "mirror" || s.extrap.isStr "periodic"
      || s.extrap.isStr "bound") = false := rfl
  have h2s : 2 ≤ s.nr := h2
  rw [callBody_value h2s hmode]
  refine congrArg Except.ok (List.map_congr_left ?_)
  intro q _
  have hxmin : s.xmin = x 0 := by
    rw [hsdef, mkSpline_xmin, xminOf_eq x nr (by omega) hx]
  have hxmax : s.xmax = x (nr - 1) := by
    rw [hsdef, mkSpline_xmax, xmaxOf_eq x nr (by omega) hx]
  have hksel : (if s.yIsGiven then s.ks else ksFromMat s.splineMatInvF s.nr s.y) = s.ks := rfl
  have hval : get_extrap_val s.extrap q = FVal.nan := rfl
  have hsy : s.y = y := rfl
  have hsx : s.x = x := rfl
  have hsnr : s.nr = nr := rfl
  rw [hksel, hsy, hsx, hsnr, hval]
  by_cases hq : x 0 ≤ q ∧ q ≤ x (nr - 1)
  · have hint : interiorB s q = true := by
      simp only [interiorB, hxmin, hxmax, decide_eq_true_eq]
      exact hq
    rw [if_pos (by simp [hint]), if_pos hq]
  · have hint : interiorB s q = false := by
      simp only [interiorB, hxmin, hxmax, decide_eq_false_iff_not]
      exact hq
    rw [if_neg (by simp [hint]), if_neg hq]

theorem claim_C6_witness :
    (callCS (mkSpline 4 (fun i => if i = 0 then 0 else if i = 1 then 1 else if i = 2 then 2 else 3)
        (some (fun i => if i = 0 then 1 else if i = 1 then 3 else if i = 2 then 0 else 2))
        (some "natural") (some (.str "nan"))) [(1/2 : ℚ), 7] none).2
      = .ok ([(1/2 : ℚ), 7].map (fun q =>
          if (fun i => if i = 0 then 0 else if i = 1 then 1 else if i = 2 then 2 else (3 : ℚ)) 0 ≤ q
              ∧ q ≤ (fun i => if i = 0 then 0 else if i = 1 then 1 else if i = 2 then 2 else (3 : ℚ)) (4 - 1) then
            FVal.fin (interp_hermite
              (fun i => if i = 0 then 0 else if i = 1 then 1 else if i = 2 then 2 else 3)
              (fun i => if i = 0 then 1 else if i = 1 then 3 else if i = 2 then 0 else 2)
              (mkSpline 4 (fun i => if i = 0 then 0 else if i = 1 then 1 else if i = 2 then 2 else 3)
                (some (fun i => if i = 0 then 1 else if i = 1 then 3 else if i = 2 then 0 else 2))
                (some "natural") (some (.str "nan"))).ks 4 q)
          else FVal.nan)) :=
  claim_C6 4 _ _ (by norm_num) (by decide) [(1/2 : ℚ), 7]

theorem spline_mat_base_eq_spec {x : ℕ → ℚ} {nr : ℕ} (i j : Fin nr) :
    spline_mat_base x nr i j =
      (if i = j then 2 * (dxinvPad x nr i.val + dxinvPad x nr (i.val + 1))
       else if j.val = i.val + 1 then dxinvPad x nr (i.val + 1)
       else if i.val = j.val + 1 then dxinvPad x nr (j.val + 1)
       else 0) := by
  by_cases hij : i = j
  · simp only [spline_mat_base, Matrix.of_apply, if_pos hij]
    unfold diagL
    ring
  · rw [if_neg hij]
    by_cases hsup : j.val = i.val + 1
    · have hlt : i.val + 1 < nr := by
        have := j.isLt
        omega
      rw [spline_mat_base_super hsup, if_pos hsup,
        dxinvPad_mid x (by omega) (by omega), Nat.add_sub_cancel]
    · rw [if_neg hsup]
      by_cases hsub : i.val = j.val + 1
      · have hlt : j.val + 1 < nr := by
          have := i.isLt
          omega
        rw [spline_mat_base_sub hsub, if_pos hsub,
          dxinvPad_mid x (by omega) (by omega), Nat.add_sub_cancel]
      · rw [spline_mat_base_far hij hsup hsub, if_neg hsub]

theorem matr_base_eq_spec {x : ℕ → ℚ} {nr : ℕ} (i j : Fin nr) :
    matr_base x nr i j =
      (if i = j then 3 * (dxinvPad x nr i.val ^ 2 - dxinvPad x nr (i.val + 1) ^ 2)
       else if j.val = i.val + 1 then 3 * dxinvPad x nr (i.val + 1) ^ 2
       else if i.val = j.val + 1 then -(3 * dxinvPad x nr (j.val + 1) ^ 2)
       else 0) := by
  simp only [matr_base, Matrix.of_apply]
  by_cases hij : i = j
  · rw [if_pos hij, if_pos hij]
    unfold dxinv2
    ring
  · rw [if_neg hij, if_neg hij]
    by_cases hsup : j.val = i.val + 1
    · rw [if_pos hsup, if_pos hsup]
      unfold dxinv2
      ring
    · rw [if_neg hsup, if_neg hsup]
      by_cases hsub : i.val = j.val + 1
      · rw [if_pos hsub, if_pos hsub]
        unfold dxinv2
        ring
      · rw [if_neg hsub, if_neg hsub]

/-- C2: the spline linear map is computed as described: left-hand and
right-hand matrices have the stated tridiagonal entries over the
zero-padded inverse spacings (with the clamped row rewrites), `Z` solves
`LeftHand ⬝ Z = RightHand`, and the slope coefficients are `k = y ⬝ Zᵀ`. -/
theorem claim_C2 (x : ℕ → ℚ) (nr : ℕ) (h2 : 2 ≤ nr)
    (hx : ∀ i < nr - 1, x i < x (i + 1)) (bc : String)
    (hbc : bc = "natural" ∨ bc = "clamped") (y : ℕ → ℚ) :
    spline_mat x nr bc = lhs_spec x nr bc ∧
    matr x nr bc = rhs_spec x nr bc ∧
    spline_mat x nr bc * spline_mat_inv x nr bc = matr x nr bc ∧
    (∀ i : Fin nr, ksFromMat (spline_mat_inv_fun x nr bc) nr y i.val
      = ∑ j : Fin nr, y j.val * (spline_mat_inv x nr bc).transpose j i) := by
  refine ⟨?_, ?_, spline_mat_mul_inv bc h2 hx, ?_⟩
  · ext i j
    by_cases hb : bc = "clamped"
    · unfold spline_mat
      rw [if_pos hb]
      unfold clamp_lhs
      simp only [Matrix.of_apply]
      by_cases hedge : i.val = 0 ∨ i.val = nr - 1
      · rw [if_pos hedge]
        unfold lhs_spec
        simp only [Matrix.of_apply]
        rw [if_pos (And.intro hb hedge)]
      · rw [if_neg hedge]
        unfold lhs_spec
        simp only [Matrix.of_apply]
        rw [if_neg (fun hc => hedge hc.2)]
        exact spline_mat_base_eq_spec i j
    · unfold spline_mat
      rw [if_neg hb]
      unfold lhs_spec
      simp only [Matrix.of_apply]
      rw [if_neg (fun hc => hb hc.1)]
      exact spline_mat_base_eq_spec i j
  · ext i j
    by_cases hb : bc = "clamped"
    · unfold matr
      rw [if_pos hb]
      unfold clamp_rhs
      simp only [Matrix.of_apply]
      by_cases hedge : i.val = 0 ∨ i.val = nr - 1
      · rw [if_pos hedge]
        unfold rhs_spec
        simp only [Matrix.of_apply]
        rw [if_pos (And.intro hb hedge)]
      · rw [if_neg hedge]
        unfold rhs_spec
        simp only [Matrix.of_apply]
        rw [if_neg (fun hc => hedge hc.2)]
        exact matr_base_eq_spec i j
    · unfold matr
      rw [if_neg hb]
      unfold rhs_spec
      simp only [Matrix.of_apply]
      rw [if_neg (fun hc => hb hc.1)]
      exact matr_base_eq_spec i j
  · intro i
    unfold ksFromMat
    rw [Finset.sum_range fun j => spline_mat_inv_fun x nr bc i.val j * y j]
    apply Finset.sum_congr rfl
    intro j _
    unfold spline_mat_inv_fun
    rw [dif_pos i.isLt, dif_pos j.isLt]
    simp only [Fin.eta, Matrix.transpose_apply]
    ring

theorem claim_C2_witness :
    spline_mat (fun i => if i = 0 then 0 else if i = 1 then 1 else if i = 2 then 2 else 3)
        4 "natural"
      * spline_mat_inv (fun i => if i = 0 then 0 else if i = 1 then 1 else if i = 2 then 2 else 3)
        4 "natural"
      = matr (fun i => if i = 0 then 0 else if i = 1 then 1 else if i = 2 then 2 else 3)
        4 "natural" :=
  (claim_C2 _ 4 (by norm_num) (by decide) "natural" (Or.inl rfl) (fun _ => 0)).2.2.1

/-- C10: with the clamped boundary condition the first and last rows of the
spline linear map vanish, so the solved slope coefficients at the two end
knots are exactly zero for every ordinate row. -/
theorem claim_C10 (x y : ℕ → ℚ) (nr : ℕ) (h2 : 2 ≤ nr)
    (hx : ∀ i < nr - 1, x i < x (i + 1)) :
    (∀ j : Fin nr, spline_mat_inv x nr "clamped" ⟨0, by omega⟩ j = 0) ∧
    (∀ j : Fin nr, spline_mat_inv x nr "clamped" ⟨nr - 1, by omega⟩ j = 0) ∧
    ksFromMat (spline_mat_inv_fun x nr "clamped") nr y 0 = 0 ∧
    ksFromMat (spline_mat_inv_fun x nr "clamped") nr y (nr - 1) = 0 := by
  have hrow0 : ∀ j : Fin nr, spline_mat_inv x nr "clamped" ⟨0, by omega⟩ j = 0 :=
    fun j => spline_mat_inv_clamped_boundary_row h2 hx (Or.inl rfl) j
  have hrowN : ∀ j : Fin nr, spline_mat_inv x nr "clamped" ⟨nr - 1, by omega⟩ j = 0 :=
    fun j => spline_mat_inv_clamped_boundary_row h2 hx (Or.inr rfl) j
  refine ⟨hrow0, hrowN, ?_, ?_⟩
  · unfold ksFromMat
    apply Finset.sum_eq_zero
    intro j hj
    rw [Finset.mem_range] at hj
    unfold spline_mat_inv_fun
    rw [dif_pos (by omega : (0 : ℕ) < nr), dif_pos hj, hrow0 ⟨j, hj⟩, zero_mul]
  · unfold ksFromMat
    apply Finset.sum_eq_zero
    intro j hj
    rw [Finset.mem_range] at hj
    unfold spline_mat_inv_fun
    rw [dif_pos (by omega : nr - 1 < nr), dif_pos hj, hrowN ⟨j, hj⟩, zero_mul]

theorem claim_C10_witness :
    ksFromMat (spline_mat_inv_fun
        (fun i => if i = 0 then 0 else if i = 1 then 1 else if i = 2 then 2 else 3) 4 "clamped")
      4 (fun i => if i = 0 then 5 else if i = 1 then 7 else if i = 2 then 1 else 4) 0 = 0 :=
  (claim_C10 _ _ 4 (by norm_num) (by decide)).2.2.1
